import Mathlib

/-!
Editor controller, message bridge and instance pool.

A shallow embedding of `src/ui/EditorNS/editor.cpp` (namespace `EditorNS`, class `Editor`).

* The static queue `Editor::m_editorBuffer` and the three pool operations are modelled by
  explicit state passing over `Pool`. An `Editor*` is an instance identity; `new Editor()`
  hands out the next identity that was never handed out before.
* The per-editor state touched by the bridge and the event handler is the record `Editor`.
  Messages handed to `m_jsToCppProxy->sendMsg` and signals emitted with `emit` are appended
  to logs kept in that record.
-/

namespace EditorNS

/-! ## Instance pool -/

/-- Identity of an `Editor` instance, i.e. the value of an `Editor*`. -/
abbrev EditorPtr := Nat

/-- A `QWidget*` parent; `none` is the null pointer. -/
abbrev WidgetPtr := Option Nat

/-- The process-wide pool state: the static queue `m_editorBuffer` (front of the queue is the
head of the list), the number of `new Editor()` evaluations so far, and the parent assigned to
each instance by `setParent` (latest assignment first). -/
structure Pool where
  m_editorBuffer : List EditorPtr
  constructed : Nat
  parents : List (EditorPtr × WidgetPtr)

/-- Evaluation of `new Editor()`: a fresh instance whose identity is the construction counter. -/
def Pool.newEditor (p : Pool) : EditorPtr × Pool :=
  (p.constructed, { p with constructed := p.constructed + 1 })

/-- The call `m_editorBuffer.enqueue(e)`: append at the back of the queue. -/
def Pool.enqueue (e : EditorPtr) (p : Pool) : Pool :=
  { p with m_editorBuffer := p.m_editorBuffer ++ [e] }

/-- The call `out->setParent(parent)`. -/
def Pool.setParent (out : EditorPtr) (parent : WidgetPtr) (p : Pool) : Pool :=
  { p with parents := (out, parent) :: p.parents }

/-- The function `Editor::getNewEditorUnmanagedPtr(parent)`. The three branches of the source
are selected by `m_editorBuffer.length()` being 0, 1 or more; `dequeue()` removes the front. -/
def getNewEditorUnmanagedPtr (parent : WidgetPtr) (p : Pool) : EditorPtr × Pool :=
  match p.m_editorBuffer with
  | [] =>
    -- m_editorBuffer.enqueue(new Editor()); out = new Editor();
    let (e, p1) := p.newEditor
    let p2 := p1.enqueue e
    let (out, p3) := p2.newEditor
    (out, p3.setParent out parent)
  | [front] =>
    -- m_editorBuffer.enqueue(new Editor()); out = m_editorBuffer.dequeue();
    let (e, p1) := p.newEditor
    let p2 := p1.enqueue e
    let p3 := { p2 with m_editorBuffer := p2.m_editorBuffer.tail }
    (front, p3.setParent front parent)
  | front :: second :: rest =>
    -- out = m_editorBuffer.dequeue();
    let p1 := { p with m_editorBuffer := second :: rest }
    (front, p1.setParent front parent)

/-- The loop body of `addEditorToBuffer` run `n` times. -/
def addEditors : Nat → Pool → Pool
  | 0, p => p
  | n + 1, p =>
    let (e, p1) := p.newEditor
    addEditors n (p1.enqueue e)

/-- The function `Editor::addEditorToBuffer(howMany)`: the loop `for (i = 0; i < howMany; i++)`
runs `howMany` times, and not at all for a non-positive `howMany`. -/
def addEditorToBuffer (howMany : Int) (p : Pool) : Pool :=
  addEditors howMany.toNat p

/-- The function `Editor::invalidateEditorBuffer()`: `m_editorBuffer.clear()`. -/
def invalidateEditorBuffer (p : Pool) : Pool :=
  { p with m_editorBuffer := [] }

/-- One pool operation issued by a caller. -/
inductive PoolOp where
  | acquire (parent : WidgetPtr)
  | replenish (howMany : Int)
  | invalidate

/-- Perform one operation; the second component collects, in call order, the instances
returned by the acquire calls so far. -/
def poolStep (st : Pool × List EditorPtr) (op : PoolOp) : Pool × List EditorPtr :=
  match op with
  | .acquire parent =>
    let (out, p) := getNewEditorUnmanagedPtr parent st.1
    (p, st.2 ++ [out])
  | .replenish howMany => (addEditorToBuffer howMany st.1, st.2)
  | .invalidate => (invalidateEditorBuffer st.1, st.2)

/-- Run a finite sequence of pool operations from pool `p`. -/
def runPool (ops : List PoolOp) (p : Pool) : Pool × List EditorPtr :=
  ops.foldl poolStep (p, [])

/-- The pool state after consecutive acquire calls, one per entry of `parents` (the parent
argument of each call), with the instances they returned. -/
def acquireAll (parents : List WidgetPtr) (p : Pool) : Pool × List EditorPtr :=
  runPool (parents.map PoolOp.acquire) p

/-- The pool as the program starts: `m_editorBuffer = QQueue<Editor*>()`. -/
def Pool.initial : Pool := { m_editorBuffer := [], constructed := 0, parents := [] }

/-! ## Values crossing the bridge -/

/-- The `QVariant` payloads that cross the bridge: the invalid (default constructed) variant,
booleans, integers, strings, lists and string-keyed maps. -/
inductive QVariant where
  | invalid
  | bool (b : Bool)
  | int (i : Int)
  | string (s : String)
  | list (l : List QVariant)
  | map (m : List (String × QVariant))

/-- A `QVariantMap` / `QMap<QString, QVariant>`, kept as an association list ordered by key. -/
abbrev QVariantMap := List (String × QVariant)

/-- The call `QMap::insert(key, value)`: replaces the value of an existing key, otherwise
inserts at the position given by the key order. -/
def QVariantMap.insert (key : String) (value : QVariant) : QVariantMap → QVariantMap
  | [] => [(key, value)]
  | (k, v) :: rest =>
    if key < k then (key, value) :: (k, v) :: rest
    else if key = k then (key, value) :: rest
    else (k, v) :: QVariantMap.insert key value rest

/-- The call `QMap::value(key)`: the stored value, or a default constructed `QVariant`. -/
def QVariantMap.value (m : QVariantMap) (key : String) : QVariant :=
  (m.lookup key).getD QVariant.invalid

/-- The conversion `QVariant::toMap()`: the empty map for a variant that is not a map. -/
def QVariant.toMap : QVariant → QVariantMap
  | .map m => m
  | _ => []

/-- The conversion `QVariant::toString()`: the empty string for lists, maps and the invalid
variant. -/
def QVariant.toQString : QVariant → String
  | .string s => s
  | .bool b => if b then "true" else "false"
  | .int i => i.repr
  | _ => ""

/-- The conversion `QVariant::toBool()`: a string is true unless its lower-case content is
empty, `0` or `false`. -/
def QVariant.toBool : QVariant → Bool
  | .bool b => b
  | .int i => i != 0
  | .string s => !(s.toLower == "" || s.toLower == "0" || s.toLower == "false")
  | _ => false

/-! ## String escaping -/

/-- The backslash character. -/
def backslash : Char := Char.ofNat 92
/-- The single quote character. -/
def singleQuote : Char := Char.ofNat 39
/-- The double quote character. -/
def doubleQuote : Char := Char.ofNat 34
/-- The line feed character `\n`. -/
def newline : Char := Char.ofNat 10
/-- The carriage return character `\r`. -/
def carriageReturn : Char := Char.ofNat 13
/-- The horizontal tab character `\t`. -/
def tab : Char := Char.ofNat 9
/-- The backspace character `\b`. -/
def backspace : Char := Char.ofNat 8

/-- The call `str.replace(before, after)` of `QString` for a one-character `before`: every
occurrence is replaced, left to right, and replaced text is not scanned again. -/
def qreplace (before : Char) (after : List Char) (str : List Char) : List Char :=
  str.flatMap fun c => if c = before then after else [c]

/-- The chain of seven replacements of `Editor::jsStringEscape`, on the characters of the
string. -/
def jsStringEscapeChars (str : List Char) : List Char :=
  qreplace backspace [backslash, 'b']
    (qreplace tab [backslash, 't']
      (qreplace carriageReturn [backslash, 'r']
        (qreplace newline [backslash, 'n']
          (qreplace doubleQuote [backslash, doubleQuote]
            (qreplace singleQuote [backslash, singleQuote]
              (qreplace backslash [backslash, backslash] str))))))

/-- The function `Editor::jsStringEscape(str)`. -/
def jsStringEscape (str : String) : String :=
  String.mk (jsStringEscapeChars str.data)

/-- The escaped form of one character, as the specification words it: a backslash, a quote, a
newline, a carriage return, a tab or a backspace becomes its backslash escape sequence, and
every other character stands for itself. -/
def escapeChar (c : Char) : List Char :=
  if c = backslash then [backslash, backslash]
  else if c = singleQuote then [backslash, singleQuote]
  else if c = doubleQuote then [backslash, doubleQuote]
  else if c = newline then [backslash, 'n']
  else if c = carriageReturn then [backslash, 'r']
  else if c = tab then [backslash, 't']
  else if c = backspace then [backslash, 'b']
  else [c]

/-- The escaped form of a string, as the specification words it: every character replaced by
its escaped form. -/
def escapedForm (s : String) : String :=
  String.mk (s.data.flatMap escapeChar)

/-! ## Zoom factors -/

/-- A `qreal` (IEEE double) as far as ordering is concerned: a finite value is the rational
number it denotes; the infinities and NaN are separate values. -/
inductive QReal where
  | nan
  | negInf
  | fin (q : ℚ)
  | posInf

/-- The comparison `a < b` of two doubles; false whenever an operand is NaN. -/
def QReal.lt : QReal → QReal → Bool
  | .nan, _ => false
  | _, .nan => false
  | .negInf, .negInf => false
  | .negInf, _ => true
  | .fin _, .negInf => false
  | .fin a, .fin b => decide (a < b)
  | .fin _, .posInf => true
  | .posInf, _ => false

/-- The comparison `a > b` of two doubles. -/
def QReal.gt (a b : QReal) : Bool := QReal.lt b a

/-- The literal `14` converted to `qreal`. -/
def zoomMax : QReal := .fin 14

/-- The value of the literal `0.10`: the double nearest to one tenth,
3602879701896397 * 2^-55. -/
def zoomMinValue : ℚ := 3602879701896397 / 36028797018963968

/-- The literal `0.10` as a `qreal`. -/
def zoomMin : QReal := .fin zoomMinValue

/-! ## Editor state -/

/-- The signals of `Editor` emitted by the event handler. -/
inductive Signal where
  | messageReceived (msg : String) (data : QVariant)
  | editorReady
  | contentChanged
  | cleanChanged (isClean : Bool)
  | cursorActivity
  | gotFocus
  | currentLanguageChanged (id : String) (name : String)
  | fileLoaded

/-- The per-language part of `NqqSettings::getInstance()` read by `setIndentationMode`. -/
structure LanguageSettings where
  getUseDefaultSettings : String → Bool
  getIndentWithSpaces : String → Bool
  getTabSize : String → Int

/-- The state of one `Editor` touched by the bridge and the event handler.
`processLoopRunning` is `m_processLoop.isRunning()`; `proxyValues` and `proxyResult` are the
values cached by `m_jsToCppProxy` (read by `getRawValue` and `getResult`); `sent` lists the
`(msg, data)` pairs handed to `m_jsToCppProxy->sendMsg`, oldest first; `emitted` lists the
signals emitted, oldest first; `webViewZoom` is the zoom factor held by `m_webView`. -/
structure Editor where
  m_loaded : Bool
  m_customIndentationMode : Bool
  processLoopRunning : Bool
  proxyValues : QVariantMap
  proxyResult : QVariant
  sent : List (String × QVariant)
  emitted : List Signal
  webViewZoom : QReal

/-- The statement `emit sig`. -/
def Editor.emit (sig : Signal) (e : Editor) : Editor :=
  { e with emitted := e.emitted ++ [sig] }

/-- The call `m_jsToCppProxy->sendMsg(msg, data)`: the message is handed to the channel. -/
def Editor.proxySendMsg (msg : String) (data : QVariant) (e : Editor) : Editor :=
  { e with sent := e.sent ++ [(msg, data)] }

/-- The function `Editor::sendMessage(msg, data)`. -/
def sendMessage (msg : String) (data : QVariant) (e : Editor) : Editor :=
  e.proxySendMsg (jsStringEscape msg) data

/-- The function `Editor::setIndentationMode(useTabs, size)`. -/
def setIndentationMode (useTabs : Bool) (size : Int) (e : Editor) : Editor :=
  let data : QVariantMap := []
  let data := data.insert "useTabs" (.bool useTabs)
  let data := data.insert "size" (.int size)
  sendMessage "C_CMD_SET_INDENTATION_MODE" (.map data) e

/-- The function `Editor::setIndentationMode(language)`. -/
def setIndentationModeFor (s : LanguageSettings) (language : String) (e : Editor) : Editor :=
  let language := if s.getUseDefaultSettings language then "default" else language
  setIndentationMode (!s.getIndentWithSpaces language) (s.getTabSize language) e

/-- The function `Editor::getLanguage(val)`. -/
def getLanguage (val : String) (e : Editor) : String :=
  let data := (e.proxyValues.value "language").toMap
  if val = "id" then (data.value "id").toQString
  else ((data.value "lang").toMap.value val).toQString

/-- The function `Editor::setLanguage(language)`. -/
def setLanguage (s : LanguageSettings) (language : String) (e : Editor) : Editor :=
  let e := sendMessage "C_CMD_SET_LANGUAGE" (.string language) e
  if !e.m_customIndentationMode then setIndentationModeFor s language e else e

/-- The function `Editor::setCustomIndentationMode(useTabs, size)`. -/
def setCustomIndentationMode (useTabs : Bool) (size : Int) (e : Editor) : Editor :=
  setIndentationMode useTabs size { e with m_customIndentationMode := true }

/-- The function `Editor::clearCustomIndentationMode()`. The call `getLanguage()` relies on
a default argument declared in the header; it is the parameter `defaultVal`. -/
def clearCustomIndentationMode (s : LanguageSettings) (defaultVal : String) (e : Editor) :
    Editor :=
  let e := { e with m_customIndentationMode := false }
  setIndentationModeFor s (getLanguage defaultVal e) e

/-- The function `Editor::isUsingCustomIndentationMode()`. -/
def isUsingCustomIndentationMode (e : Editor) : Bool :=
  e.m_customIndentationMode

/-- The function `Editor::on_proxyMessageReceived(msg, data)`. -/
def on_proxyMessageReceived (s : LanguageSettings) (msg : String) (data : QVariant)
    (e : Editor) : Editor :=
  let e := e.emit (.messageReceived msg data)
  if msg = "J_EVT_READY" then
    ({ e with m_loaded := true }).emit .editorReady
  else if msg = "J_EVT_CONTENT_CHANGED" then
    e.emit .contentChanged
  else if msg = "J_EVT_CLEAN_CHANGED" then
    e.emit (.cleanChanged data.toBool)
  else if msg = "J_EVT_CURSOR_ACTIVITY" then
    e.emit .cursorActivity
  else if msg = "J_EVT_GOT_FOCUS" then
    e.emit .gotFocus
  else if msg = "J_EVT_CURRENT_LANGUAGE_CHANGED" then
    let lang := data.toMap
    let id := (lang.value "id").toQString
    let name := ((lang.value "lang").toMap.value "name").toQString
    let e := if !e.m_customIndentationMode then setIndentationModeFor s id e else e
    e.emit (.currentLanguageChanged id name)
  else if msg = "J_EVT_FILE_LOADED" then
    e.emit .fileLoaded
  else e

/-! ## Blocking queries -/

/-- What the proxy delivers while the process loop runs: a reply to the pending query (the
proxy stores the result and emits `replyReady`, which is connected to `m_processLoop.quit`),
or an unsolicited event (`editorEvent`, connected to `on_proxyMessageReceived`). -/
inductive ProxyEvent where
  | replyReady (result : QVariant)
  | editorEvent (msg : String) (data : QVariant)

/-- The loop of `m_processLoop.exec()` over the deliveries that arrive while it runs: events
are dispatched in order and the first `replyReady` quits the loop. The result is the editor,
the deliveries not consumed, and whether the loop has quit; when the deliveries run out first
the loop is still running. -/
def processLoop (s : LanguageSettings) : List ProxyEvent → Editor →
    Editor × List ProxyEvent × Bool
  | [], e => (e, [], false)
  | .replyReady result :: rest, e =>
    ({ e with proxyResult := result, processLoopRunning := false }, rest, true)
  | .editorEvent msg data :: rest, e =>
    processLoop s rest (on_proxyMessageReceived s msg data e)

/-- The call `m_processLoop.exec()`. -/
def processLoopExec (s : LanguageSettings) (inbox : List ProxyEvent) (e : Editor) :
    Editor × List ProxyEvent × Bool :=
  processLoop s inbox { e with processLoopRunning := true }

/-- How a call of `sendMessageWithResult` ends: it throws, it is still blocked in the process
loop when the deliveries run out, or it returns the result held by the proxy. -/
inductive CallOutcome where
  | threw (what : String)
  | blocked
  | returned (value : QVariant)

/-- The editor after the call, how the call ended, and the deliveries left over. -/
structure QueryResult where
  editor : Editor
  outcome : CallOutcome
  pending : List ProxyEvent

/-- The function `Editor::sendMessageWithResult(msg, data)`, where `inbox` lists what the
proxy delivers while the call waits. -/
def sendMessageWithResult (s : LanguageSettings) (msg : String) (data : QVariant)
    (inbox : List ProxyEvent) (e : Editor) : QueryResult :=
  if e.processLoopRunning then
    { editor := e
      outcome := .threw ("m_processLoop must never be running at this point. " ++
        "Did this function get called from another thread?")
      pending := inbox }
  else
    let e := e.proxySendMsg (jsStringEscape msg) data
    let (e, rest, quit) := processLoopExec s inbox e
    if quit then { editor := e, outcome := .returned e.proxyResult, pending := rest }
    else { editor := e, outcome := .blocked, pending := rest }

/-- The first reply among the deliveries, if any. -/
def firstReply : List ProxyEvent → Option QVariant
  | [] => none
  | .replyReady result :: _ => some result
  | .editorEvent _ _ :: rest => firstReply rest

/-! ## Zoom and themes -/

/-- The function `Editor::setZoomFactor(factor)`; the view stores the factor it is given. -/
def setZoomFactor (factor : QReal) (e : Editor) : Editor :=
  let normFact := factor
  let normFact :=
    if normFact.gt zoomMax then zoomMax
    else if normFact.lt zoomMin then zoomMin
    else normFact
  { e with webViewZoom := normFact }

/-- The function `Editor::zoomFactor()`. -/
def zoomFactor (e : Editor) : QReal :=
  e.webViewZoom

/-- The record `Editor::Theme`. -/
structure Theme where
  name : String
  path : String

/-- The function `Editor::themeFromName(name)`. The bundled theme directory is given by
`filePath` (the call `bundledThemesDir.filePath(fileName)`) and `fileExists` (the call
`QFile(path).exists()`). -/
def themeFromName (filePath : String → String) (fileExists : String → Bool) (name : String) :
    Theme :=
  let defaultTheme : Theme := { name := "default", path := "" }
  if name = "default" ∨ name = "" then defaultTheme
  else
    let themeFile := filePath (name ++ ".css")
    if fileExists themeFile then { name := name, path := themeFile }
    else defaultTheme

/-- The data of the last set-indentation-mode command among the messages sent, if any. -/
def lastIndentation (sent : List (String × QVariant)) : Option QVariant :=
  ((sent.filter fun m => m.1 = "C_CMD_SET_INDENTATION_MODE").getLast?).map Prod.snd

/-- The payload `{size, useTabs}` of a set-indentation-mode command. -/
def indentationData (useTabs : Bool) (size : Int) : QVariant :=
  .map [("size", .int size), ("useTabs", .bool useTabs)]

/-- An editor right after construction, before the page has loaded. -/
def Editor.fresh : Editor :=
  { m_loaded := false
    m_customIndentationMode := false
    processLoopRunning := false
    proxyValues := []
    proxyResult := .invalid
    sent := []
    emitted := []
    webViewZoom := .fin 1 }

/-- Consecutive `setLanguage` calls, one per entry of `langs`, in order. -/
def setLanguages (s : LanguageSettings) (langs : List String) (e : Editor) : Editor :=
  langs.foldl (fun e language => setLanguage s language e) e

/-- The seven event tags that `on_proxyMessageReceived` recognizes. -/
def recognizedEvents : List String :=
  ["J_EVT_READY", "J_EVT_CONTENT_CHANGED", "J_EVT_CLEAN_CHANGED", "J_EVT_CURSOR_ACTIVITY",
    "J_EVT_GOT_FOCUS", "J_EVT_CURRENT_LANGUAGE_CHANGED", "J_EVT_FILE_LOADED"]

/-- The payload `{id, lang: {name}}` of a language-changed event. -/
def languagePayload (id name : String) : QVariant :=
  .map [("id", .string id), ("lang", .map [("name", .string name)])]

/-- A settings store in which `python` has its own settings (spaces, width 4), every other
language uses the defaults, and the defaults are tabs of width 8. -/
def sampleSettings : LanguageSettings :=
  { getUseDefaultSettings := fun l => l != "python"
    getIndentWithSpaces := fun l => l == "python"
    getTabSize := fun l => if l = "python" then 4 else 8 }

/-- A theme directory `/theme/`: the path of a file in it. -/
def sampleThemePath (fileName : String) : String := "/theme/" ++ fileName

/-- A theme directory holding the single file `monokai.css`. -/
def sampleThemeExists (path : String) : Bool := path == "/theme/monokai.css"

/-- The seven characters that `jsStringEscape` replaces. -/
def specialChars : List Char :=
  [backslash, singleQuote, doubleQuote, newline, carriageReturn, tab, backspace]

/-- The character denoted by the second character of a two-character escape sequence. -/
def unescapeSecond (c : Char) : Char :=
  if c = 'n' then newline
  else if c = 'r' then carriageReturn
  else if c = 't' then tab
  else if c = 'b' then backspace
  else c

/-- A decoder for escaped text, used to show that escaping loses nothing: a backslash and the
character after it are read as one escape sequence, every other character as itself. -/
def unescapeChars : List Char → List Char
  | [] => []
  | [c] => [c]
  | c :: d :: rest =>
    if c = backslash then unescapeSecond d :: unescapeChars rest
    else c :: unescapeChars (d :: rest)

/-- Every message tag that `editor.cpp` passes to `sendMessage` or `sendMessageWithResult`. -/
def controllerTags : List String :=
  ["C_CMD_SET_FOCUS", "C_CMD_BLUR", "C_CMD_MARK_CLEAN", "C_CMD_MARK_DIRTY",
    "C_CMD_SET_LANGUAGE", "C_FUN_SET_LANGUAGE_FROM_FILENAME", "C_CMD_SET_INDENTATION_MODE",
    "C_CMD_SET_SMART_INDENT", "C_CMD_SET_VALUE", "C_FUN_GET_VALUE",
    "C_CMD_SET_SELECTIONS_TEXT", "C_CMD_SET_LINE_WRAP", "C_CMD_SHOW_END_OF_LINE",
    "C_CMD_SHOW_WHITESPACE", "C_CMD_SET_CURSOR", "C_CMD_SET_SELECTION", "C_CMD_SET_SCROLL_POS",
    "C_CMD_SET_FONT", "C_CMD_SET_THEME", "C_CMD_SET_OVERWRITE", "C_CMD_SET_TABS_VISIBLE",
    "C_CMD_DISPLAY_PRINT_STYLE", "C_CMD_DISPLAY_NORMAL_STYLE", "C_FUN_GET_CURRENT_WORD"]

/-- In the text `out`, every single or double quote directly follows a backslash. -/
def QuotesEscaped (out : List Char) : Prop :=
  ∀ i, (out[i]? = some singleQuote ∨ out[i]? = some doubleQuote) →
    ∃ j, i = j + 1 ∧ out[j]? = some backslash

/-- Whether a signal is the generic `messageReceived` signal. -/
def Signal.isMessageReceived : Signal → Bool
  | .messageReceived _ _ => true
  | _ => false

/-! ## Pool invariant -/

/-- The reserve has no duplicates and holds only constructed instances; the acquired instances
are pairwise distinct, constructed, and none of them is in the reserve. -/
structure PoolInv (buf : List Nat) (c : Nat) (acq : List Nat) : Prop where
  bufNodup : buf.Nodup
  bufOld : ∀ x ∈ buf, x < c
  acqNodup : acq.Nodup
  acqOld : ∀ x ∈ acq, x < c
  disjoint : ∀ x ∈ acq, x ∉ buf

/-- The invariant on a state of the run. -/
def StInv (st : Pool × List EditorPtr) : Prop :=
  PoolInv st.1.m_editorBuffer st.1.constructed st.2

/-! ## Instance pool -/

theorem nodup_snoc (l : List Nat) (a : Nat) : (l ++ [a]).Nodup ↔ l.Nodup ∧ a ∉ l := by
  rw [List.nodup_append]
  simp only [List.nodup_singleton, List.Disjoint, List.mem_singleton, true_and]
  constructor
  · rintro ⟨h1, h2⟩
    exact ⟨h1, fun h => h2 h rfl⟩
  · rintro ⟨h1, h2⟩
    exact ⟨h1, fun x hx e => h2 (e ▸ hx)⟩

/-- Enqueueing a freshly constructed instance keeps the invariant. -/
theorem PoolInv.construct_enqueue {buf : List Nat} {c : Nat} {acq : List Nat}
    (h : PoolInv buf c acq) : PoolInv (buf ++ [c]) (c + 1) acq := by
  obtain ⟨h1, h2, h3, h4, h5⟩ := h
  refine ⟨(nodup_snoc buf c).2 ⟨h1, fun hx => lt_irrefl c (h2 c hx)⟩, ?_, h3, ?_, ?_⟩
  · intro x hx
    rcases List.mem_append.1 hx with hx | hx
    · exact Nat.lt_succ_of_lt (h2 x hx)
    · rw [List.mem_singleton.1 hx]
      exact Nat.lt_succ_self c
  · exact fun x hx => Nat.lt_succ_of_lt (h4 x hx)
  · intro x hx hm
    rcases List.mem_append.1 hm with hm | hm
    · exact h5 x hx hm
    · rw [List.mem_singleton.1 hm] at hx
      exact lt_irrefl c (h4 c hx)

/-- Handing out a freshly constructed instance keeps the invariant. -/
theorem PoolInv.construct_out {buf : List Nat} {c : Nat} {acq : List Nat}
    (h : PoolInv buf c acq) : PoolInv buf (c + 1) (acq ++ [c]) := by
  obtain ⟨h1, h2, h3, h4, h5⟩ := h
  refine ⟨h1, fun x hx => Nat.lt_succ_of_lt (h2 x hx),
    (nodup_snoc acq c).2 ⟨h3, fun hx => lt_irrefl c (h4 c hx)⟩, ?_, ?_⟩
  · intro x hx
    rcases List.mem_append.1 hx with hx | hx
    · exact Nat.lt_succ_of_lt (h4 x hx)
    · rw [List.mem_singleton.1 hx]
      exact Nat.lt_succ_self c
  · intro x hx hm
    rcases List.mem_append.1 hx with hx | hx
    · exact h5 x hx hm
    · rw [List.mem_singleton.1 hx] at hm
      exact lt_irrefl c (h2 c hm)

/-- Dequeueing the front of the reserve and handing it out keeps the invariant. -/
theorem PoolInv.dequeue {front : Nat} {rest : List Nat} {c : Nat} {acq : List Nat}
    (h : PoolInv (front :: rest) c acq) : PoolInv rest c (acq ++ [front]) := by
  obtain ⟨h1, h2, h3, h4, h5⟩ := h
  have hfr : front ∉ rest := (List.nodup_cons.mp h1).1
  refine ⟨(List.nodup_cons.mp h1).2, fun x hx => h2 x (List.mem_cons_of_mem _ hx),
    (nodup_snoc acq front).2 ⟨h3, fun hx => h5 front hx (List.mem_cons_self _ _)⟩, ?_, ?_⟩
  · intro x hx
    rcases List.mem_append.1 hx with hx | hx
    · exact h4 x hx
    · rw [List.mem_singleton.1 hx]
      exact h2 front (List.mem_cons_self _ _)
  · intro x hx hm
    rcases List.mem_append.1 hx with hx | hx
    · exact h5 x hx (List.mem_cons_of_mem _ hm)
    · rw [List.mem_singleton.1 hx] at hm
      exact hfr hm

theorem addEditors_inv (n : Nat) (p : Pool) (acq : List EditorPtr) (h : StInv (p, acq)) :
    StInv (addEditors n p, acq) := by
  induction n generalizing p with
  | zero => exact h
  | succ n ih => exact ih _ (PoolInv.construct_enqueue h)

theorem poolStep_inv (st : Pool × List EditorPtr) (op : PoolOp) (h : StInv st) :
    StInv (poolStep st op) := by
  obtain ⟨p, acq⟩ := st
  cases op with
  | replenish n => exact addEditors_inv _ p acq h
  | invalidate =>
    exact ⟨List.nodup_nil, fun x hx => absurd hx (List.not_mem_nil x), h.acqNodup, h.acqOld,
      fun x _ => List.not_mem_nil x⟩
  | acquire parent =>
    obtain ⟨buf, c, ps⟩ := p
    match buf, h with
    | [], h => exact (PoolInv.construct_enqueue h).construct_out
    | [front], h => exact PoolInv.dequeue (PoolInv.construct_enqueue h)
    | front :: second :: rest, h => exact PoolInv.dequeue h

theorem foldl_poolStep_inv (ops : List PoolOp) (st : Pool × List EditorPtr) (h : StInv st) :
    StInv (ops.foldl poolStep st) := by
  induction ops generalizing st with
  | nil => exact h
  | cons op ops ih => exact ih _ (poolStep_inv st op h)

theorem poolStep_acquired_mono (st : Pool × List EditorPtr) (op : PoolOp) :
    ∀ x ∈ st.2, x ∈ (poolStep st op).2 := by
  intro x hx
  cases op with
  | acquire parent => exact List.mem_append_left _ hx
  | replenish n => exact hx
  | invalidate => exact hx

theorem foldl_poolStep_acquired_mono (ops : List PoolOp) (st : Pool × List EditorPtr) :
    ∀ x ∈ st.2, x ∈ (ops.foldl poolStep st).2 := by
  induction ops generalizing st with
  | nil => exact fun x hx => hx
  | cons op ops ih =>
    intro x hx
    exact ih _ x (poolStep_acquired_mono st op x hx)

theorem start_inv (p : Pool) (hnd : p.m_editorBuffer.Nodup)
    (hfresh : ∀ x ∈ p.m_editorBuffer, x < p.constructed) : StInv (p, []) :=
  ⟨hnd, hfresh, List.nodup_nil, fun x hx => absurd hx (List.not_mem_nil x),
    fun x hx => absurd hx (List.not_mem_nil x)⟩

/-- C1: from any reserve without duplicates whose instances were constructed earlier, over any
finite sequence of acquire, replenish and invalidate operations, the acquire calls return
pairwise distinct instances, and an instance returned by an acquire call of an initial part
`ops1` of the sequence is not in the reserve after any continuation `ops2`. -/
theorem acquire_unique_and_never_requeued (p : Pool) (hnd : p.m_editorBuffer.Nodup)
    (hfresh : ∀ x ∈ p.m_editorBuffer, x < p.constructed) (ops1 ops2 : List PoolOp) :
    (runPool (ops1 ++ ops2) p).2.Nodup ∧
    ∀ h ∈ (runPool ops1 p).2, h ∉ (runPool (ops1 ++ ops2) p).1.m_editorBuffer := by
  have hinv := foldl_poolStep_inv (ops1 ++ ops2) (p, []) (start_inv p hnd hfresh)
  refine ⟨hinv.acqNodup, fun h hh => ?_⟩
  apply hinv.disjoint
  simp only [runPool, List.foldl_append] at hh ⊢
  exact foldl_poolStep_acquired_mono ops2 _ h hh

/-- Witness for C1: a reserve of two instances, then acquire, invalidate, replenish(2),
acquire. -/
theorem acquire_unique_and_never_requeued_witness :
    ([0, 1] : List EditorPtr).Nodup ∧
    (runPool ([.acquire none, .invalidate] ++ [.replenish 2, .acquire (some 7)])
      { m_editorBuffer := [0, 1], constructed := 2, parents := [] }).2.Nodup ∧
    ∀ h ∈ (runPool [.acquire none, .invalidate]
        { m_editorBuffer := [0, 1], constructed := 2, parents := [] }).2,
      h ∉ (runPool ([.acquire none, .invalidate] ++ [.replenish 2, .acquire (some 7)])
        { m_editorBuffer := [0, 1], constructed := 2, parents := [] }).1.m_editorBuffer :=
  ⟨by decide,
    acquire_unique_and_never_requeued
      { m_editorBuffer := [0, 1], constructed := 2, parents := [] } (by decide) (by decide)
      [.acquire none, .invalidate] [.replenish 2, .acquire (some 7)]⟩

/-! ### Reserve policy -/

theorem acquire_reserve_length (parent : WidgetPtr) (p : Pool) :
    (getNewEditorUnmanagedPtr parent p).2.m_editorBuffer.length
      = max 1 (p.m_editorBuffer.length - 1) := by
  obtain ⟨buf, c, ps⟩ := p
  match buf with
  | [] => rfl
  | [front] => rfl
  | front :: second :: rest =>
    simp only [getNewEditorUnmanagedPtr, Pool.setParent, List.length_cons]
    omega

theorem acquire_constructed_one (parent : WidgetPtr) (p : Pool)
    (h : p.m_editorBuffer.length = 1) :
    (getNewEditorUnmanagedPtr parent p).2.constructed = p.constructed + 1 := by
  obtain ⟨buf, c, ps⟩ := p
  match buf, h with
  | [front], _ => rfl

/-- Consecutive acquire calls on a reserve of exactly one instance keep the reserve at
one instance and construct one instance per call. -/
theorem foldl_acquire_from_one (parents : List WidgetPtr) (st : Pool × List EditorPtr)
    (h : st.1.m_editorBuffer.length = 1) :
    ((parents.map PoolOp.acquire).foldl poolStep st).1.m_editorBuffer.length = 1 ∧
    ((parents.map PoolOp.acquire).foldl poolStep st).1.constructed
      = st.1.constructed + parents.length ∧
    ((parents.map PoolOp.acquire).foldl poolStep st).2.length = st.2.length + parents.length := by
  induction parents generalizing st with
  | nil => exact ⟨h, rfl, rfl⟩
  | cons parent parents ih =>
    have hlen : (poolStep st (.acquire parent)).1.m_editorBuffer.length = 1 := by
      show (getNewEditorUnmanagedPtr parent st.1).2.m_editorBuffer.length = 1
      rw [acquire_reserve_length, h]
      rfl
    have hc : (poolStep st (.acquire parent)).1.constructed = st.1.constructed + 1 :=
      acquire_constructed_one parent st.1 h
    have hacq : (poolStep st (.acquire parent)).2.length = st.2.length + 1 := by
      show (st.2 ++ [(getNewEditorUnmanagedPtr parent st.1).1]).length = st.2.length + 1
      simp
    obtain ⟨i1, i2, i3⟩ := ih (poolStep st (.acquire parent)) hlen
    simp only [List.map_cons, List.foldl_cons, List.length_cons]
    refine ⟨i1, ?_, ?_⟩
    · rw [i2, hc]
      omega
    · rw [i3, hacq]
      omega

/-- Consecutive acquire calls, at least one, from an empty reserve: as many handles as calls,
one construction more than calls, and exactly one instance left in the reserve. -/
theorem acquireAll_from_empty (parent : WidgetPtr) (parents : List WidgetPtr) (p : Pool)
    (h : p.m_editorBuffer = []) :
    (acquireAll (parent :: parents) p).1.m_editorBuffer.length = 1 ∧
    (acquireAll (parent :: parents) p).1.constructed = p.constructed + parents.length + 2 ∧
    (acquireAll (parent :: parents) p).2.length = parents.length + 1 := by
  obtain ⟨buf, c, ps⟩ := p
  simp only at h
  subst h
  obtain ⟨i1, i2, i3⟩ := foldl_acquire_from_one parents
    (poolStep ({ m_editorBuffer := [], constructed := c, parents := ps }, []) (.acquire parent))
    rfl
  simp only [acquireAll, runPool, List.map_cons, List.foldl_cons]
  refine ⟨i1, ?_, ?_⟩
  · rw [i2]
    show c + 1 + 1 + parents.length = c + parents.length + 2
    omega
  · rw [i3]
    show 1 + parents.length = parents.length + 1
    omega

/-- C9: after every acquire the reserve holds `max 1 (n - 1)` instances, hence at least one,
when it held `n` before; and from an empty reserve, `n >= 1` consecutive acquire calls return
exactly `n` pairwise distinct handles, perform at least `n` constructions (in fact `n + 1`) and
leave at most one instance (in fact exactly one) in the reserve; in particular for five calls
on the initial pool. -/
theorem acquire_reserve_policy :
    (∀ (parent : WidgetPtr) (p : Pool),
      (getNewEditorUnmanagedPtr parent p).2.m_editorBuffer.length
        = max 1 (p.m_editorBuffer.length - 1) ∧
      1 ≤ (getNewEditorUnmanagedPtr parent p).2.m_editorBuffer.length) ∧
    (∀ (parents : List WidgetPtr) (p : Pool), 1 ≤ parents.length → p.m_editorBuffer = [] →
      (acquireAll parents p).2.length = parents.length ∧
      (acquireAll parents p).2.Nodup ∧
      parents.length ≤ (acquireAll parents p).1.constructed - p.constructed ∧
      (acquireAll parents p).1.constructed = p.constructed + parents.length + 1 ∧
      (acquireAll parents p).1.m_editorBuffer.length ≤ 1 ∧
      (acquireAll parents p).1.m_editorBuffer.length = 1) ∧
    ((acquireAll [none, none, none, none, none] Pool.initial).2 = [1, 0, 2, 3, 4] ∧
      (acquireAll [none, none, none, none, none] Pool.initial).1.constructed = 6 ∧
      (acquireAll [none, none, none, none, none] Pool.initial).1.m_editorBuffer = [5]) := by
  refine ⟨fun parent p => ?_, fun parents p hn hempty => ?_, by decide⟩
  · have h := acquire_reserve_length parent p
    exact ⟨h, by rw [h]; exact le_max_left _ _⟩
  · match parents, hn with
    | parent :: parents, _ =>
      obtain ⟨i1, i2, i3⟩ := acquireAll_from_empty parent parents p hempty
      have hinv := foldl_poolStep_inv ((parent :: parents).map PoolOp.acquire) (p, [])
        (start_inv p (by rw [hempty]; exact List.nodup_nil)
          (by rw [hempty]; exact fun x hx => absurd hx (List.not_mem_nil x)))
      refine ⟨i3, hinv.acqNodup, ?_, ?_, ?_, i1⟩
      · rw [i2, List.length_cons]
        omega
      · rw [i2, List.length_cons]
        omega
      · rw [i1]

/-- Witness for C9: three acquire calls on a pool whose reserve was just invalidated. -/
theorem acquire_reserve_policy_witness :
    1 ≤ ([none, some 3, none] : List WidgetPtr).length ∧
    (acquireAll [none, some 3, none]
      { m_editorBuffer := [], constructed := 4, parents := [] }).2.length = 3 ∧
    (acquireAll [none, some 3, none]
      { m_editorBuffer := [], constructed := 4, parents := [] }).1.m_editorBuffer.length ≤ 1 :=
  ⟨by decide,
    (acquire_reserve_policy.2.1 [none, some 3, none]
      { m_editorBuffer := [], constructed := 4, parents := [] } (by decide) rfl).1,
    (acquire_reserve_policy.2.1 [none, some 3, none]
      { m_editorBuffer := [], constructed := 4, parents := [] } (by decide) rfl).2.2.2.2.1⟩

/-! ## String escaping -/

theorem qreplace_append (before : Char) (after x y : List Char) :
    qreplace before after (x ++ y) = qreplace before after x ++ qreplace before after y := by
  simp [qreplace]

theorem jsStringEscapeChars_append (x y : List Char) :
    jsStringEscapeChars (x ++ y) = jsStringEscapeChars x ++ jsStringEscapeChars y := by
  simp [jsStringEscapeChars, qreplace_append]

theorem jsStringEscapeChars_single (c : Char) : jsStringEscapeChars [c] = escapeChar c := by
  unfold jsStringEscapeChars escapeChar
  by_cases h1 : c = backslash
  · subst h1
    decide
  by_cases h2 : c = singleQuote
  · subst h2
    decide
  by_cases h3 : c = doubleQuote
  · subst h3
    decide
  by_cases h4 : c = newline
  · subst h4
    decide
  by_cases h5 : c = carriageReturn
  · subst h5
    decide
  by_cases h6 : c = tab
  · subst h6
    decide
  by_cases h7 : c = backspace
  · subst h7
    decide
  simp [qreplace, h1, h2, h3, h4, h5, h6, h7]

/-- The seven sequential replacements amount to replacing every character by its escaped
form. -/
theorem jsStringEscapeChars_eq (l : List Char) :
    jsStringEscapeChars l = l.flatMap escapeChar := by
  induction l with
  | nil => rfl
  | cons c l ih =>
    have h : c :: l = [c] ++ l := rfl
    rw [h, jsStringEscapeChars_append, ih, jsStringEscapeChars_single]
    simp

theorem jsStringEscape_eq_escapedForm (s : String) : jsStringEscape s = escapedForm s := by
  simp [jsStringEscape, escapedForm, jsStringEscapeChars_eq]

/-! ## Commands -/

/-- C8 (as amended): for every tag and every payload, `sendMessage` hands exactly one message
to the channel; its tag is the escaped form of the given tag, in which every backslash, single
quote, double quote, newline, carriage return, tab and backspace is replaced by its backslash
escape sequence, and its payload is the given payload, unchanged; nothing else changes. -/
theorem sendMessage_escapes_tag_only (msg : String) (data : QVariant) (e : Editor) :
    (sendMessage msg data e).sent = e.sent ++ [(escapedForm msg, data)] ∧
    (sendMessage msg data e).emitted = e.emitted ∧
    (sendMessage msg data e).m_loaded = e.m_loaded ∧
    (sendMessage msg data e).m_customIndentationMode = e.m_customIndentationMode ∧
    (sendMessage msg data e).processLoopRunning = e.processLoopRunning := by
  have htag : jsStringEscape msg = escapedForm msg := jsStringEscape_eq_escapedForm msg
  refine ⟨?_, rfl, rfl, rfl, rfl⟩
  show e.sent ++ [(jsStringEscape msg, data)] = e.sent ++ [(escapedForm msg, data)]
  rw [htag]

/-- C8 (as stated) fails: a string payload with a newline is delivered as it is, not in its
escaped form. -/
theorem sendMessage_payload_not_escaped :
    (sendMessage "C_CMD_SET_VALUE" (.string "a\nb") Editor.fresh).sent
      = [("C_CMD_SET_VALUE", .string "a\nb")] ∧
    escapedForm "a\nb" = "a\\nb" ∧
    (sendMessage "C_CMD_SET_VALUE" (.string "a\nb") Editor.fresh).sent
      ≠ [("C_CMD_SET_VALUE", .string (escapedForm "a\nb"))] := by
  have h1 : jsStringEscape "C_CMD_SET_VALUE" = "C_CMD_SET_VALUE" := by decide
  have h2 : escapedForm "a\nb" = "a\\nb" := by decide
  refine ⟨by simp [sendMessage, Editor.proxySendMsg, Editor.fresh, h1], h2, ?_⟩
  simp only [sendMessage, Editor.proxySendMsg, Editor.fresh, h1, h2, List.nil_append, ne_eq,
    List.cons.injEq, Prod.mk.injEq, QVariant.string.injEq, and_true, true_and]
  decide

theorem tag_setIndentationMode :
    jsStringEscape "C_CMD_SET_INDENTATION_MODE" = "C_CMD_SET_INDENTATION_MODE" := by decide

theorem tag_setLanguage : jsStringEscape "C_CMD_SET_LANGUAGE" = "C_CMD_SET_LANGUAGE" := by
  decide

theorem indentation_map (useTabs : Bool) (size : Int) :
    QVariant.map (QVariantMap.insert "size" (.int size)
      (QVariantMap.insert "useTabs" (.bool useTabs) [])) = indentationData useTabs size := by
  have h : "size" < "useTabs" := by
    rw [String.lt_iff_toList_lt]
    decide
  simp only [QVariantMap.insert, indentationData]
  rw [if_pos h]

theorem setIndentationMode_eq (useTabs : Bool) (size : Int) (e : Editor) :
    setIndentationMode useTabs size e =
      { e with sent := e.sent ++ [("C_CMD_SET_INDENTATION_MODE",
          indentationData useTabs size)] } := by
  simp only [setIndentationMode, sendMessage, Editor.proxySendMsg, tag_setIndentationMode,
    indentation_map]

theorem lastIndentation_snoc (sent : List (String × QVariant)) (d : QVariant) :
    lastIndentation (sent ++ [("C_CMD_SET_INDENTATION_MODE", d)]) = some d := by
  simp [lastIndentation, List.filter_append]

theorem lastIndentation_append_other (sent other : List (String × QVariant))
    (h : ∀ m ∈ other, m.1 ≠ "C_CMD_SET_INDENTATION_MODE") :
    lastIndentation (sent ++ other) = lastIndentation sent := by
  have hf : other.filter (fun m => m.1 = "C_CMD_SET_INDENTATION_MODE") = [] := by
    rw [List.filter_eq_nil_iff]
    intro m hm
    simpa using h m hm
  simp [lastIndentation, List.filter_append, hf]

/-! ## Indentation derivation -/

theorem setLanguage_custom (s : LanguageSettings) (language : String) (e : Editor)
    (h : e.m_customIndentationMode = true) :
    setLanguage s language e =
      { e with sent := e.sent ++ [("C_CMD_SET_LANGUAGE", .string language)] } := by
  simp [setLanguage, sendMessage, Editor.proxySendMsg, tag_setLanguage, h]

theorem setLanguages_custom (s : LanguageSettings) (langs : List String) (e : Editor)
    (h : e.m_customIndentationMode = true) :
    setLanguages s langs e =
      { e with sent := e.sent ++ langs.map fun l => ("C_CMD_SET_LANGUAGE", .string l) } := by
  induction langs generalizing e with
  | nil => simp [setLanguages]
  | cons l langs ih =>
    have hstep : setLanguages s (l :: langs) e = setLanguages s langs (setLanguage s l e) := rfl
    rw [hstep, setLanguage_custom s l e h, ih]
    · simp
    · exact h

/-- C3: after `setCustomIndentationMode(useTabs, size)`, any number of `setLanguage` calls send
only their set-language commands and no set-indentation-mode command, so the last indentation
pushed is still `{useTabs, size}` and `isUsingCustomIndentationMode()` stays true; after
`clearCustomIndentationMode()` the flag is false. -/
theorem custom_indentation_persists (s : LanguageSettings) (useTabs : Bool) (size : Int)
    (langs : List String) (defaultVal : String) (e : Editor) :
    (setLanguages s langs (setCustomIndentationMode useTabs size e)).sent
      = (setCustomIndentationMode useTabs size e).sent
        ++ langs.map (fun l => ("C_CMD_SET_LANGUAGE", QVariant.string l)) ∧
    (∀ m ∈ langs.map (fun l => ("C_CMD_SET_LANGUAGE", QVariant.string l)),
      m.1 ≠ "C_CMD_SET_INDENTATION_MODE") ∧
    lastIndentation (setLanguages s langs (setCustomIndentationMode useTabs size e)).sent
      = some (indentationData useTabs size) ∧
    isUsingCustomIndentationMode
      (setLanguages s langs (setCustomIndentationMode useTabs size e)) = true ∧
    isUsingCustomIndentationMode (clearCustomIndentationMode s defaultVal
      (setLanguages s langs (setCustomIndentationMode useTabs size e))) = false := by
  have hother : ∀ m ∈ langs.map (fun l => ("C_CMD_SET_LANGUAGE", QVariant.string l)),
      m.1 ≠ "C_CMD_SET_INDENTATION_MODE" := by
    intro m hm
    obtain ⟨l, _, rfl⟩ := List.mem_map.1 hm
    show "C_CMD_SET_LANGUAGE" ≠ "C_CMD_SET_INDENTATION_MODE"
    decide
  have hc : (setCustomIndentationMode useTabs size e).m_customIndentationMode = true := by
    simp [setCustomIndentationMode, setIndentationMode_eq]
  have hrun := setLanguages_custom s langs _ hc
  refine ⟨by rw [hrun], hother, ?_, by rw [hrun]; exact hc, ?_⟩
  · rw [hrun]
    simp only [setCustomIndentationMode, setIndentationMode_eq]
    rw [lastIndentation_append_other _ _ hother, lastIndentation_snoc]
  · simp [isUsingCustomIndentationMode, clearCustomIndentationMode, setIndentationModeFor,
      setIndentationMode_eq]

/-- Witness for C3: a custom indentation of two spaces survives two language changes. -/
theorem custom_indentation_persists_witness :
    lastIndentation (setLanguages sampleSettings ["python", "cpp"]
      (setCustomIndentationMode false 2 Editor.fresh)).sent
      = some (indentationData false 2) ∧
    isUsingCustomIndentationMode (setLanguages sampleSettings ["python", "cpp"]
      (setCustomIndentationMode false 2 Editor.fresh)) = true :=
  ⟨(custom_indentation_persists sampleSettings false 2 ["python", "cpp"] "id"
      Editor.fresh).2.2.1,
    (custom_indentation_persists sampleSettings false 2 ["python", "cpp"] "id"
      Editor.fresh).2.2.2.1⟩

/-- C4: when no custom indentation override is active, `setLanguage(L)` sends the set-language
command and then pushes the indentation `{useTabs = not indentWithSpaces(L'), size =
tabSize(L')}`, where `L'` is `default` when the settings store says `L` uses the default
settings and `L` otherwise; the override flag stays off. -/
theorem setLanguage_pushes_configured_indentation (s : LanguageSettings) (language : String)
    (e : Editor) (h : isUsingCustomIndentationMode e = false) :
    (setLanguage s language e).sent = e.sent ++
      [("C_CMD_SET_LANGUAGE", .string language),
       ("C_CMD_SET_INDENTATION_MODE",
        indentationData
          (!s.getIndentWithSpaces (if s.getUseDefaultSettings language then "default"
            else language))
          (s.getTabSize (if s.getUseDefaultSettings language then "default"
            else language)))] ∧
    lastIndentation (setLanguage s language e).sent
      = some (indentationData
          (!s.getIndentWithSpaces (if s.getUseDefaultSettings language then "default"
            else language))
          (s.getTabSize (if s.getUseDefaultSettings language then "default"
            else language))) ∧
    isUsingCustomIndentationMode (setLanguage s language e) = false := by
  have hc : e.m_customIndentationMode = false := h
  have hsent : (setLanguage s language e).sent = e.sent ++
      [("C_CMD_SET_LANGUAGE", .string language),
       ("C_CMD_SET_INDENTATION_MODE",
        indentationData
          (!s.getIndentWithSpaces (if s.getUseDefaultSettings language then "default"
            else language))
          (s.getTabSize (if s.getUseDefaultSettings language then "default"
            else language)))] := by
    simp [setLanguage, sendMessage, Editor.proxySendMsg, tag_setLanguage, hc,
      setIndentationModeFor, setIndentationMode_eq]
  refine ⟨hsent, ?_, ?_⟩
  · rw [hsent]
    have hsplit : ∀ (a b : String × QVariant), e.sent ++ [a, b] = (e.sent ++ [a]) ++ [b] := by
      intro a b
      simp
    rw [hsplit, lastIndentation_snoc]
  · simp [isUsingCustomIndentationMode, setLanguage, sendMessage, Editor.proxySendMsg, hc,
      setIndentationModeFor, setIndentationMode_eq]

/-- Witness for C4: `setLanguage("cpp")` on a fresh editor pushes the default indentation. -/
theorem setLanguage_pushes_configured_indentation_witness :
    isUsingCustomIndentationMode Editor.fresh = false ∧
    (setLanguage sampleSettings "cpp" Editor.fresh).sent =
      [("C_CMD_SET_LANGUAGE", .string "cpp"),
       ("C_CMD_SET_INDENTATION_MODE", indentationData true 8)] :=
  ⟨rfl, (setLanguage_pushes_configured_indentation sampleSettings "cpp" Editor.fresh rfl).1⟩

/-! ## Event dispatch -/

/-- The handler emits the generic `messageReceived(msg, data)` signal first and exactly once
for every inbound event, whatever its tag: the signals emitted after it are of other kinds. -/
theorem on_proxyMessageReceived_generic_signal (s : LanguageSettings) (msg : String)
    (data : QVariant) (e : Editor) :
    ∃ rest, (on_proxyMessageReceived s msg data e).emitted
        = e.emitted ++ .messageReceived msg data :: rest ∧
      ∀ sig ∈ rest, sig.isMessageReceived = false := by
  simp only [on_proxyMessageReceived]
  split_ifs
  · exact ⟨[.editorReady],
      by simp [Editor.emit, setIndentationModeFor, setIndentationMode_eq],
      fun sig hs => by rw [List.mem_singleton.1 hs]; rfl⟩
  · exact ⟨[.contentChanged],
      by simp [Editor.emit, setIndentationModeFor, setIndentationMode_eq],
      fun sig hs => by rw [List.mem_singleton.1 hs]; rfl⟩
  · exact ⟨[.cleanChanged data.toBool],
      by simp [Editor.emit, setIndentationModeFor, setIndentationMode_eq],
      fun sig hs => by rw [List.mem_singleton.1 hs]; rfl⟩
  · exact ⟨[.cursorActivity],
      by simp [Editor.emit, setIndentationModeFor, setIndentationMode_eq],
      fun sig hs => by rw [List.mem_singleton.1 hs]; rfl⟩
  · exact ⟨[.gotFocus],
      by simp [Editor.emit, setIndentationModeFor, setIndentationMode_eq],
      fun sig hs => by rw [List.mem_singleton.1 hs]; rfl⟩
  · exact ⟨[.currentLanguageChanged (data.toMap.value "id").toQString
        ((data.toMap.value "lang").toMap.value "name").toQString],
      by simp [Editor.emit, setIndentationModeFor, setIndentationMode_eq],
      fun sig hs => by rw [List.mem_singleton.1 hs]; rfl⟩
  · exact ⟨[.currentLanguageChanged (data.toMap.value "id").toQString
        ((data.toMap.value "lang").toMap.value "name").toQString],
      by simp [Editor.emit, setIndentationModeFor, setIndentationMode_eq],
      fun sig hs => by rw [List.mem_singleton.1 hs]; rfl⟩
  · exact ⟨[.fileLoaded],
      by simp [Editor.emit, setIndentationModeFor, setIndentationMode_eq],
      fun sig hs => by rw [List.mem_singleton.1 hs]; rfl⟩
  · exact ⟨[], by simp [Editor.emit], fun sig hs => absurd hs (List.not_mem_nil sig)⟩

/-- C7 (as amended): for every inbound event whose tag is not one of the seven recognized tags
and every payload, the handler does not fail, leaves the loaded flag and the
custom-indentation flag unchanged, sends no command to the embedded side, and notifies no
subscriber except that it emits the generic `messageReceived(msg, data)` signal exactly
once. -/
theorem unknown_event_only_forwarded (s : LanguageSettings) (msg : String) (data : QVariant)
    (e : Editor) (h : msg ∉ recognizedEvents) :
    on_proxyMessageReceived s msg data e = e.emit (.messageReceived msg data) ∧
    (on_proxyMessageReceived s msg data e).m_loaded = e.m_loaded ∧
    (on_proxyMessageReceived s msg data e).m_customIndentationMode
      = e.m_customIndentationMode ∧
    (on_proxyMessageReceived s msg data e).sent = e.sent ∧
    (on_proxyMessageReceived s msg data e).emitted
      = e.emitted ++ [.messageReceived msg data] := by
  simp only [recognizedEvents, List.mem_cons, List.mem_singleton, List.not_mem_nil, or_false,
    not_or] at h
  obtain ⟨h1, h2, h3, h4, h5, h6, h7⟩ := h
  have hmain : on_proxyMessageReceived s msg data e = e.emit (.messageReceived msg data) := by
    simp only [on_proxyMessageReceived, if_neg h1, if_neg h2, if_neg h3, if_neg h4, if_neg h5,
      if_neg h6, if_neg h7]
  rw [hmain]
  exact ⟨rfl, rfl, rfl, rfl, rfl⟩

/-- Witness for C7: an event with an unknown tag on a fresh editor. -/
theorem unknown_event_only_forwarded_witness :
    "J_EVT_SCROLL" ∉ recognizedEvents ∧
    (on_proxyMessageReceived sampleSettings "J_EVT_SCROLL" (.int 3) Editor.fresh).sent
      = Editor.fresh.sent ∧
    (on_proxyMessageReceived sampleSettings "J_EVT_SCROLL" (.int 3) Editor.fresh).emitted
      = Editor.fresh.emitted ++ [.messageReceived "J_EVT_SCROLL" (.int 3)] :=
  ⟨by decide,
    (unknown_event_only_forwarded sampleSettings "J_EVT_SCROLL" (.int 3) Editor.fresh
      (by decide)).2.2.2.1,
    (unknown_event_only_forwarded sampleSettings "J_EVT_SCROLL" (.int 3) Editor.fresh
      (by decide)).2.2.2.2⟩

/-- C7 (as stated) fails: an event with an unrecognized tag is passed on to the subscribers of
`messageReceived`. -/
theorem unknown_event_notifies_subscribers :
    "J_EVT_SCROLL" ∉ recognizedEvents ∧
    (on_proxyMessageReceived sampleSettings "J_EVT_SCROLL" (.int 3) Editor.fresh).emitted
      = [.messageReceived "J_EVT_SCROLL" (.int 3)] ∧
    (on_proxyMessageReceived sampleSettings "J_EVT_SCROLL" (.int 3) Editor.fresh).emitted
      ≠ Editor.fresh.emitted := by
  have h : (on_proxyMessageReceived sampleSettings "J_EVT_SCROLL" (.int 3)
      Editor.fresh).emitted = [.messageReceived "J_EVT_SCROLL" (.int 3)] := by
    simp [on_proxyMessageReceived, Editor.emit, Editor.fresh]
  refine ⟨by decide, h, ?_⟩
  rw [h]
  simp [Editor.fresh]

theorem languagePayload_id (id name : String) :
    (languagePayload id name).toMap.value "id" = .string id := by
  simp [languagePayload, QVariant.toMap, QVariantMap.value, List.lookup]

theorem languagePayload_name (id name : String) :
    ((languagePayload id name).toMap.value "lang").toMap.value "name" = .string name := by
  have h : ("lang" == "id") = false := by decide
  simp [languagePayload, QVariant.toMap, QVariantMap.value, List.lookup, h]

/-- C10: for every language-changed event whose payload is a map holding the string `id` under
`id` and, under `lang`, a map holding the string `name` under `name`, the handler emits
`currentLanguageChanged(id, name)` exactly once (after the generic `messageReceived` signal);
if no custom indentation override is active it pushes exactly one set-indentation-mode command
with the settings derived for the language `id`, and if an override is active it pushes
nothing; in both cases the override flag is unchanged. -/
theorem language_changed_event (s : LanguageSettings) (data : QVariant) (id name : String)
    (e : Editor) (hid : data.toMap.value "id" = .string id)
    (hname : (data.toMap.value "lang").toMap.value "name" = .string name) :
    (on_proxyMessageReceived s "J_EVT_CURRENT_LANGUAGE_CHANGED" data e).emitted
      = e.emitted ++ [.messageReceived "J_EVT_CURRENT_LANGUAGE_CHANGED" data,
          .currentLanguageChanged id name] ∧
    (e.m_customIndentationMode = false →
      (on_proxyMessageReceived s "J_EVT_CURRENT_LANGUAGE_CHANGED" data e).sent
        = e.sent ++ [("C_CMD_SET_INDENTATION_MODE",
            indentationData
              (!s.getIndentWithSpaces (if s.getUseDefaultSettings id then "default" else id))
              (s.getTabSize (if s.getUseDefaultSettings id then "default" else id)))]) ∧
    (e.m_customIndentationMode = true →
      (on_proxyMessageReceived s "J_EVT_CURRENT_LANGUAGE_CHANGED" data e).sent = e.sent) ∧
    (on_proxyMessageReceived s "J_EVT_CURRENT_LANGUAGE_CHANGED" data e).m_customIndentationMode
      = e.m_customIndentationMode := by
  have h1 : ¬ ("J_EVT_CURRENT_LANGUAGE_CHANGED" = "J_EVT_READY") := by decide
  have h2 : ¬ ("J_EVT_CURRENT_LANGUAGE_CHANGED" = "J_EVT_CONTENT_CHANGED") := by decide
  have h3 : ¬ ("J_EVT_CURRENT_LANGUAGE_CHANGED" = "J_EVT_CLEAN_CHANGED") := by decide
  have h4 : ¬ ("J_EVT_CURRENT_LANGUAGE_CHANGED" = "J_EVT_CURSOR_ACTIVITY") := by decide
  have h5 : ¬ ("J_EVT_CURRENT_LANGUAGE_CHANGED" = "J_EVT_GOT_FOCUS") := by decide
  have hmain : on_proxyMessageReceived s "J_EVT_CURRENT_LANGUAGE_CHANGED" data e =
      ((if !(e.emit (.messageReceived "J_EVT_CURRENT_LANGUAGE_CHANGED"
            data)).m_customIndentationMode
        then setIndentationModeFor s id (e.emit (.messageReceived
          "J_EVT_CURRENT_LANGUAGE_CHANGED" data))
        else e.emit (.messageReceived "J_EVT_CURRENT_LANGUAGE_CHANGED"
          data)).emit (.currentLanguageChanged id name)) := by
    simp only [on_proxyMessageReceived, if_neg h1, if_neg h2, if_neg h3, if_neg h4, if_neg h5,
      if_true, hid, hname, QVariant.toQString]
  rw [hmain]
  cases hc : e.m_customIndentationMode <;>
    simp [Editor.emit, hc, setIndentationModeFor, setIndentationMode_eq]

/-- Witness for C10: a language-changed event for `python` on a fresh editor, and on an editor
with a custom indentation override. -/
theorem language_changed_event_witness :
    Editor.fresh.m_customIndentationMode = false ∧
    (on_proxyMessageReceived sampleSettings "J_EVT_CURRENT_LANGUAGE_CHANGED"
        (languagePayload "python" "Python") Editor.fresh).sent
      = [("C_CMD_SET_INDENTATION_MODE", indentationData false 4)] ∧
    (on_proxyMessageReceived sampleSettings "J_EVT_CURRENT_LANGUAGE_CHANGED"
        (languagePayload "python" "Python") Editor.fresh).emitted
      = [.messageReceived "J_EVT_CURRENT_LANGUAGE_CHANGED" (languagePayload "python" "Python"),
          .currentLanguageChanged "python" "Python"] ∧
    (setCustomIndentationMode true 2 Editor.fresh).m_customIndentationMode = true ∧
    (on_proxyMessageReceived sampleSettings "J_EVT_CURRENT_LANGUAGE_CHANGED"
        (languagePayload "python" "Python") (setCustomIndentationMode true 2 Editor.fresh)).sent
      = (setCustomIndentationMode true 2 Editor.fresh).sent :=
  ⟨rfl,
    (language_changed_event sampleSettings (languagePayload "python" "Python") "python"
      "Python" Editor.fresh (languagePayload_id _ _) (languagePayload_name _ _)).2.1 rfl,
    (language_changed_event sampleSettings (languagePayload "python" "Python") "python"
      "Python" Editor.fresh (languagePayload_id _ _) (languagePayload_name _ _)).1,
    rfl,
    (language_changed_event sampleSettings (languagePayload "python" "Python") "python"
      "Python" (setCustomIndentationMode true 2 Editor.fresh)
      (languagePayload_id _ _) (languagePayload_name _ _)).2.2.1 rfl⟩

/-! ## Blocking queries -/

/-- The event handler never touches the process loop, and whatever it sends is a
set-indentation-mode command appended to the messages sent so far. -/
theorem on_proxyMessageReceived_frame (s : LanguageSettings) (msg : String) (data : QVariant)
    (e : Editor) :
    (on_proxyMessageReceived s msg data e).processLoopRunning = e.processLoopRunning ∧
    ∃ extra, (on_proxyMessageReceived s msg data e).sent = e.sent ++ extra ∧
      ∀ m ∈ extra, m.1 = "C_CMD_SET_INDENTATION_MODE" := by
  simp only [on_proxyMessageReceived]
  split_ifs
  all_goals first
    | exact ⟨rfl, [], (List.append_nil _).symm, fun m hm => absurd hm (List.not_mem_nil m)⟩
    | exact ⟨by simp [Editor.emit, setIndentationModeFor, setIndentationMode_eq],
        [("C_CMD_SET_INDENTATION_MODE", _)],
        by simp [Editor.emit, setIndentationModeFor, setIndentationMode_eq]; rfl,
        fun m hm => by rw [List.mem_singleton.1 hm]⟩

theorem processLoop_spec (s : LanguageSettings) (inbox : List ProxyEvent) (e : Editor) :
    (∃ extra, (processLoop s inbox e).1.sent = e.sent ++ extra ∧
      (∀ m ∈ extra, m.1 = "C_CMD_SET_INDENTATION_MODE") ∧ (inbox = [] → extra = [])) ∧
    (processLoop s inbox e).2.2 = (firstReply inbox).isSome ∧
    (∀ r, firstReply inbox = some r →
      (processLoop s inbox e).1.proxyResult = r ∧
      (processLoop s inbox e).1.processLoopRunning = false) ∧
    (firstReply inbox = none →
      (processLoop s inbox e).1.processLoopRunning = e.processLoopRunning) := by
  induction inbox generalizing e with
  | nil =>
    exact ⟨⟨[], (List.append_nil _).symm, fun m hm => absurd hm (List.not_mem_nil m),
      fun _ => rfl⟩, rfl, fun r hr => by simp [firstReply] at hr, fun _ => rfl⟩
  | cons ev rest ih =>
    cases ev with
    | replyReady result =>
      refine ⟨⟨[], (List.append_nil _).symm, fun m hm => absurd hm (List.not_mem_nil m),
        fun _ => rfl⟩, rfl, fun r hr => ?_, fun hn => by simp [firstReply] at hn⟩
      simp only [firstReply, Option.some.injEq] at hr
      subst hr
      exact ⟨rfl, rfl⟩
    | editorEvent msg data =>
      obtain ⟨⟨extra2, hs2, ht2, _⟩, hq, hr, hn⟩ := ih (on_proxyMessageReceived s msg data e)
      obtain ⟨hrun, extra1, hs1, ht1⟩ := on_proxyMessageReceived_frame s msg data e
      refine ⟨⟨extra1 ++ extra2, ?_, ?_, fun h => by simp at h⟩, hq, hr, fun h => ?_⟩
      · show (processLoop s rest (on_proxyMessageReceived s msg data e)).1.sent = _
        rw [hs2, hs1, List.append_assoc]
      · intro m hm
        rcases List.mem_append.1 hm with hm | hm
        · exact ht1 m hm
        · exact ht2 m hm
      · show (processLoop s rest (on_proxyMessageReceived s msg data e)).1.processLoopRunning
          = _
        rw [hn h, hrun]

/-- C2: `sendMessageWithResult` throws if and only if the process loop is already running (a
query is pending on this bridge). When it throws, the editor is unchanged: no message was sent
and nothing was queued. When no query is pending, the message (escaped tag, payload) is sent
exactly once, followed only by set-indentation-mode commands pushed by handlers of events
delivered while waiting (none when nothing is delivered); the call then waits: it returns the
first reply delivered, and it is still blocked, with the process loop running, as long as no
reply is delivered. -/
theorem query_fatal_iff_pending (s : LanguageSettings) (msg : String) (data : QVariant)
    (inbox : List ProxyEvent) (e : Editor) :
    ((∃ what, (sendMessageWithResult s msg data inbox e).outcome = .threw what)
      ↔ e.processLoopRunning = true) ∧
    (e.processLoopRunning = true →
      (sendMessageWithResult s msg data inbox e).editor = e ∧
      (sendMessageWithResult s msg data inbox e).pending = inbox) ∧
    (e.processLoopRunning = false →
      (∃ extra, (sendMessageWithResult s msg data inbox e).editor.sent
          = e.sent ++ (jsStringEscape msg, data) :: extra ∧
        (∀ m ∈ extra, m.1 = "C_CMD_SET_INDENTATION_MODE") ∧ (inbox = [] → extra = [])) ∧
      (∀ r, firstReply inbox = some r →
        (sendMessageWithResult s msg data inbox e).outcome = .returned r ∧
        (sendMessageWithResult s msg data inbox e).editor.processLoopRunning = false) ∧
      (firstReply inbox = none →
        (sendMessageWithResult s msg data inbox e).outcome = .blocked ∧
        (sendMessageWithResult s msg data inbox e).editor.processLoopRunning = true)) := by
  cases hrun : e.processLoopRunning with
  | true =>
    refine ⟨⟨fun _ => rfl, fun _ => ⟨_, by rw [sendMessageWithResult, if_pos hrun]⟩⟩,
      fun _ => by simp [sendMessageWithResult, hrun], fun h => by simp at h⟩
  | false =>
    obtain ⟨⟨extra, hs, ht, hnil⟩, hq, hr, hn⟩ := processLoop_spec s inbox
      { (e.proxySendMsg (jsStringEscape msg) data) with processLoopRunning := true }
    have hunf : sendMessageWithResult s msg data inbox e =
        if (processLoop s inbox { (e.proxySendMsg (jsStringEscape msg) data) with
            processLoopRunning := true }).2.2 then
          { editor := (processLoop s inbox { (e.proxySendMsg (jsStringEscape msg) data) with
              processLoopRunning := true }).1
            outcome := .returned (processLoop s inbox
              { (e.proxySendMsg (jsStringEscape msg) data) with
                processLoopRunning := true }).1.proxyResult
            pending := (processLoop s inbox { (e.proxySendMsg (jsStringEscape msg) data) with
              processLoopRunning := true }).2.1 }
        else
          { editor := (processLoop s inbox { (e.proxySendMsg (jsStringEscape msg) data) with
              processLoopRunning := true }).1
            outcome := .blocked
            pending := (processLoop s inbox { (e.proxySendMsg (jsStringEscape msg) data) with
              processLoopRunning := true }).2.1 } := by
      simp only [sendMessageWithResult, hrun, processLoopExec, Bool.false_eq_true, if_false]
    have hed : (sendMessageWithResult s msg data inbox e).editor =
        (processLoop s inbox { (e.proxySendMsg (jsStringEscape msg) data) with
          processLoopRunning := true }).1 := by
      rw [hunf]
      split_ifs <;> rfl
    refine ⟨⟨fun ⟨what, hw⟩ => ?_, fun h => by simp at h⟩, fun h => by simp at h, fun _ =>
      ⟨⟨extra, ?_, ht, hnil⟩, fun r hfr => ?_, fun hfn => ?_⟩⟩
    · rw [hunf] at hw
      split_ifs at hw
    · rw [hed, hs]
      simp [Editor.proxySendMsg]
    · rw [hed]
      refine ⟨?_, (hr r hfr).2⟩
      rw [hunf, hq, hfr]
      simp [(hr r hfr).1]
    · rw [hed]
      refine ⟨?_, hn hfn⟩
      rw [hunf, hq, hfn]
      simp

/-- Witness for C2: a query on a fresh editor with no reply blocks with the loop running, and
a second query issued in that state throws without sending anything. -/
theorem query_fatal_iff_pending_witness :
    Editor.fresh.processLoopRunning = false ∧
    (sendMessageWithResult sampleSettings "C_FUN_GET_VALUE" .invalid [] Editor.fresh).outcome
      = .blocked ∧
    (sendMessageWithResult sampleSettings "C_FUN_GET_VALUE" .invalid []
      Editor.fresh).editor.processLoopRunning = true ∧
    (sendMessageWithResult sampleSettings "C_FUN_GET_CURRENT_WORD" .invalid []
      (sendMessageWithResult sampleSettings "C_FUN_GET_VALUE" .invalid []
        Editor.fresh).editor).editor
      = (sendMessageWithResult sampleSettings "C_FUN_GET_VALUE" .invalid []
        Editor.fresh).editor :=
  ⟨rfl,
    ((query_fatal_iff_pending sampleSettings "C_FUN_GET_VALUE" .invalid []
      Editor.fresh).2.2 rfl).2.2 rfl |>.1,
    ((query_fatal_iff_pending sampleSettings "C_FUN_GET_VALUE" .invalid []
      Editor.fresh).2.2 rfl).2.2 rfl |>.2,
    ((query_fatal_iff_pending sampleSettings "C_FUN_GET_CURRENT_WORD" .invalid []
      (sendMessageWithResult sampleSettings "C_FUN_GET_VALUE" .invalid []
        Editor.fresh).editor).2.1 rfl).1⟩

/-! ## Zoom and themes -/

theorem zoomMinValue_lt : zoomMinValue < 14 := by
  unfold zoomMinValue
  norm_num

/-- C6: `setZoomFactor(x)` followed by `zoomFactor()` returns 14 when `x > 14`, the constant
`0.10` when `x < 0.10`, and `x` itself otherwise, the boundary values `0.10` and 14 included;
for a finite `x` this is `clamp(x, 0.10, 14)`. The view stores the value it is given. -/
theorem zoom_roundtrip_clamp (x : QReal) (e : Editor) :
    (x.gt zoomMax = true → zoomFactor (setZoomFactor x e) = zoomMax) ∧
    (x.lt zoomMin = true → zoomFactor (setZoomFactor x e) = zoomMin) ∧
    (x.gt zoomMax = false → x.lt zoomMin = false → zoomFactor (setZoomFactor x e) = x) ∧
    (∀ q : ℚ, x = .fin q →
      zoomFactor (setZoomFactor x e) = .fin (max zoomMinValue (min q 14))) ∧
    zoomFactor (setZoomFactor zoomMin e) = zoomMin ∧
    zoomFactor (setZoomFactor zoomMax e) = zoomMax := by
  have hlt := zoomMinValue_lt
  refine ⟨fun h => ?_, fun h => ?_, fun h1 h2 => ?_, fun q hq => ?_, ?_, ?_⟩
  · simp [zoomFactor, setZoomFactor, h]
  · have hg : x.gt zoomMax = false := by
      cases x with
      | nan => rfl
      | negInf => rfl
      | posInf => simp [QReal.lt, zoomMin] at h
      | fin q =>
        simp only [QReal.lt, zoomMin, decide_eq_true_eq] at h
        simp only [QReal.gt, QReal.lt, zoomMax, decide_eq_false_iff_not, not_lt]
        exact le_of_lt (lt_trans h hlt)
    simp [zoomFactor, setZoomFactor, h, hg]
  · simp [zoomFactor, setZoomFactor, h1, h2]
  · subst hq
    simp only [zoomFactor, setZoomFactor, QReal.gt, QReal.lt, zoomMax, zoomMin]
    by_cases h1 : (14 : ℚ) < q
    · have h3 : zoomMinValue ≤ 14 := le_of_lt hlt
      simp [h1, min_eq_right (le_of_lt h1), max_eq_right h3]
    · have h1' : q ≤ 14 := not_lt.1 h1
      by_cases h2 : q < zoomMinValue
      · simp [h1, h2, min_eq_left h1', max_eq_left (le_of_lt h2)]
      · simp [h1, h2, min_eq_left h1', max_eq_right (not_lt.1 h2)]
  · have h1 : ¬ ((14 : ℚ) < zoomMinValue) := not_lt.2 (le_of_lt hlt)
    simp [zoomFactor, setZoomFactor, QReal.gt, QReal.lt, zoomMax, zoomMin, h1]
  · have h1 : ¬ ((14 : ℚ) < zoomMinValue) := not_lt.2 (le_of_lt hlt)
    simp [zoomFactor, setZoomFactor, QReal.gt, QReal.lt, zoomMax, zoomMin, h1]

/-- Witness for C6: the factors 20, 0 and 2 are stored as 14, `0.10` and 2. -/
theorem zoom_roundtrip_clamp_witness :
    (QReal.fin 20).gt zoomMax = true ∧
    zoomFactor (setZoomFactor (.fin 20) Editor.fresh) = zoomMax ∧
    (QReal.fin 0).lt zoomMin = true ∧
    zoomFactor (setZoomFactor (.fin 0) Editor.fresh) = zoomMin ∧
    (QReal.fin 2).gt zoomMax = false ∧ (QReal.fin 2).lt zoomMin = false ∧
    zoomFactor (setZoomFactor (.fin 2) Editor.fresh) = .fin 2 :=
  have h1 : (QReal.fin 20).gt zoomMax = true := by
    simp only [QReal.gt, QReal.lt, zoomMax, decide_eq_true_eq]
    norm_num
  have h2 : (QReal.fin 0).lt zoomMin = true := by
    simp [QReal.lt, zoomMin, zoomMinValue]
  have h3 : (QReal.fin 2).gt zoomMax = false := by
    simp only [QReal.gt, QReal.lt, zoomMax, decide_eq_false_iff_not, not_lt]
    norm_num
  have h4 : (QReal.fin 2).lt zoomMin = false := by
    simp only [QReal.lt, zoomMin, zoomMinValue, decide_eq_false_iff_not, not_lt]
    norm_num
  ⟨h1, (zoom_roundtrip_clamp (.fin 20) Editor.fresh).1 h1,
    h2, (zoom_roundtrip_clamp (.fin 0) Editor.fresh).2.1 h2,
    h3, h4, (zoom_roundtrip_clamp (.fin 2) Editor.fresh).2.2.1 h3 h4⟩

/-- C5: `themeFromName(name)` returns `{name: default, path: empty}` when the name is empty,
is `default`, or no file `<name>.css` exists in the theme directory, and otherwise returns
`{name, path of <name>.css}`; in particular `nonexistent` without such a file resolves to
the default theme; the name of the result is never empty. -/
theorem themeFromName_resolution (filePath : String → String) (fileExists : String → Bool)
    (name : String) :
    ((name = "" ∨ name = "default" ∨ fileExists (filePath (name ++ ".css")) = false) →
      themeFromName filePath fileExists name = { name := "default", path := "" }) ∧
    (¬ (name = "" ∨ name = "default" ∨ fileExists (filePath (name ++ ".css")) = false) →
      themeFromName filePath fileExists name
        = { name := name, path := filePath (name ++ ".css") }) ∧
    (fileExists (filePath ("nonexistent" ++ ".css")) = false →
      themeFromName filePath fileExists "nonexistent" = { name := "default", path := "" }) ∧
    (themeFromName filePath fileExists name).name ≠ "" := by
  have hdef : ∀ n : String,
      (n = "" ∨ n = "default" ∨ fileExists (filePath (n ++ ".css")) = false) →
      themeFromName filePath fileExists n = { name := "default", path := "" } := by
    intro n h
    unfold themeFromName
    by_cases h0 : n = "default" ∨ n = ""
    · simp only [if_pos h0]
    · have hf : fileExists (filePath (n ++ ".css")) = false := by
        rcases h with h | h | h
        · exact absurd (Or.inr h) h0
        · exact absurd (Or.inl h) h0
        · exact h
      simp [if_neg h0, hf]
  have hfound : ¬ (name = "" ∨ name = "default" ∨
      fileExists (filePath (name ++ ".css")) = false) →
      themeFromName filePath fileExists name
        = { name := name, path := filePath (name ++ ".css") } := by
    intro h
    have h0 : ¬ (name = "default" ∨ name = "") := fun h0 =>
      h (h0.elim (fun a => Or.inr (Or.inl a)) Or.inl)
    have hf : fileExists (filePath (name ++ ".css")) = true := by
      cases hc : fileExists (filePath (name ++ ".css"))
      · exact absurd (Or.inr (Or.inr hc)) h
      · rfl
    unfold themeFromName
    simp [if_neg h0, hf]
  refine ⟨hdef name, hfound, fun h => hdef "nonexistent" (Or.inr (Or.inr h)), ?_⟩
  by_cases h : name = "" ∨ name = "default" ∨ fileExists (filePath (name ++ ".css")) = false
  · rw [hdef name h]
    decide
  · rw [hfound h]
    exact fun hn => h (Or.inl hn)

/-- Witness for C5: with only `monokai.css` in the theme directory, `nonexistent` resolves to
the default theme and `monokai` to its file. -/
theorem themeFromName_resolution_witness :
    sampleThemeExists (sampleThemePath ("nonexistent" ++ ".css")) = false ∧
    themeFromName sampleThemePath sampleThemeExists "nonexistent"
      = { name := "default", path := "" } ∧
    ¬ ("monokai" = "" ∨ "monokai" = "default" ∨
      sampleThemeExists (sampleThemePath ("monokai" ++ ".css")) = false) ∧
    themeFromName sampleThemePath sampleThemeExists "monokai"
      = { name := "monokai", path := "/theme/monokai.css" } :=
  ⟨by decide,
    (themeFromName_resolution sampleThemePath sampleThemeExists "nonexistent").2.2.1
      (by decide),
    by decide,
    (themeFromName_resolution sampleThemePath sampleThemeExists "monokai").2.1 (by decide)⟩

/-! ## Escaping loses nothing -/

/-- The two shapes of an escaped character: a character that is not special stands for
itself, and a special one becomes a backslash and a second character that decodes to it. -/
theorem escapeChar_cases (c : Char) :
    (c ∉ specialChars ∧ escapeChar c = [c]) ∨
    (c ∈ specialChars ∧ ∃ d, escapeChar c = [backslash, d] ∧ unescapeSecond d = c ∧
      d ≠ newline ∧ d ≠ carriageReturn ∧ d ≠ tab ∧ d ≠ backspace) := by
  unfold escapeChar
  by_cases h1 : c = backslash
  · subst h1
    exact Or.inr ⟨by decide, backslash, by decide⟩
  by_cases h2 : c = singleQuote
  · subst h2
    exact Or.inr ⟨by decide, singleQuote, by decide⟩
  by_cases h3 : c = doubleQuote
  · subst h3
    exact Or.inr ⟨by decide, doubleQuote, by decide⟩
  by_cases h4 : c = newline
  · subst h4
    exact Or.inr ⟨by decide, 'n', by decide⟩
  by_cases h5 : c = carriageReturn
  · subst h5
    exact Or.inr ⟨by decide, 'r', by decide⟩
  by_cases h6 : c = tab
  · subst h6
    exact Or.inr ⟨by decide, 't', by decide⟩
  by_cases h7 : c = backspace
  · subst h7
    exact Or.inr ⟨by decide, 'b', by decide⟩
  refine Or.inl ⟨?_, by simp [h1, h2, h3, h4, h5, h6, h7]⟩
  simp [specialChars, h1, h2, h3, h4, h5, h6, h7]

theorem unescapeChars_cons_plain (c : Char) (rest : List Char) (h : c ≠ backslash) :
    unescapeChars (c :: rest) = c :: unescapeChars rest := by
  cases rest with
  | nil => rfl
  | cons d rest => simp [unescapeChars, h]

theorem unescapeChars_escape (d : Char) (rest : List Char) :
    unescapeChars (backslash :: d :: rest) = unescapeSecond d :: unescapeChars rest := by
  simp [unescapeChars]

/-- Decoding the escaped form gives the text back. -/
theorem unescapeChars_flatMap_escapeChar (l : List Char) :
    unescapeChars (l.flatMap escapeChar) = l := by
  induction l with
  | nil => rfl
  | cons c l ih =>
    rw [List.flatMap_cons]
    rcases escapeChar_cases c with ⟨hc, he⟩ | ⟨_, d, he, hd, _⟩
    · have hb : c ≠ backslash := fun h => hc (by rw [h]; decide)
      rw [he, List.singleton_append, unescapeChars_cons_plain c _ hb, ih]
    · rw [he]
      show unescapeChars (backslash :: d :: l.flatMap escapeChar) = c :: l
      rw [unescapeChars_escape, ih, hd]

theorem jsStringEscapeChars_injective (x y : List Char)
    (h : jsStringEscapeChars x = jsStringEscapeChars y) : x = y := by
  rw [jsStringEscapeChars_eq, jsStringEscapeChars_eq] at h
  rw [← unescapeChars_flatMap_escapeChar x, ← unescapeChars_flatMap_escapeChar y, h]

theorem jsStringEscapeChars_no_control (l : List Char) :
    ∀ c ∈ jsStringEscapeChars l,
      c ≠ newline ∧ c ≠ carriageReturn ∧ c ≠ tab ∧ c ≠ backspace := by
  intro c hc
  rw [jsStringEscapeChars_eq, List.mem_flatMap] at hc
  obtain ⟨a, _, hca⟩ := hc
  rcases escapeChar_cases a with ⟨ha, he⟩ | ⟨_, d, he, _, hd⟩
  · rw [he, List.mem_singleton] at hca
    subst hca
    simp only [specialChars, List.mem_cons, List.mem_singleton, List.not_mem_nil, or_false,
      not_or] at ha
    exact ⟨ha.2.2.2.1, ha.2.2.2.2.1, ha.2.2.2.2.2.1, ha.2.2.2.2.2.2⟩
  · rw [he] at hca
    simp only [List.mem_cons, List.mem_singleton, List.not_mem_nil, or_false] at hca
    rcases hca with hca | hca
    · subst hca
      decide
    · subst hca
      exact hd

theorem quotesEscaped_cons_plain (a : Char) (out : List Char) (h1 : a ≠ singleQuote)
    (h2 : a ≠ doubleQuote) (h : QuotesEscaped out) : QuotesEscaped (a :: out) := by
  intro i hi
  cases i with
  | zero =>
    simp only [List.getElem?_cons_zero, Option.some.injEq] at hi
    exact absurd hi (not_or.2 ⟨h1, h2⟩)
  | succ k =>
    simp only [List.getElem?_cons_succ] at hi
    obtain ⟨j, hj, hb⟩ := h k hi
    exact ⟨j + 1, by rw [hj], by rw [List.getElem?_cons_succ]; exact hb⟩

theorem quotesEscaped_cons_escape (d : Char) (out : List Char) (h : QuotesEscaped out) :
    QuotesEscaped (backslash :: d :: out) := by
  intro i hi
  match i, hi with
  | 0, hi =>
    simp only [List.getElem?_cons_zero, Option.some.injEq] at hi
    exact absurd hi (by decide)
  | 1, _ => exact ⟨0, rfl, rfl⟩
  | k + 2, hi =>
    simp only [List.getElem?_cons_succ] at hi
    obtain ⟨j, hj, hb⟩ := h k hi
    exact ⟨j + 2, by rw [hj], by simp only [List.getElem?_cons_succ]; exact hb⟩

theorem jsStringEscapeChars_quotesEscaped (l : List Char) :
    QuotesEscaped (jsStringEscapeChars l) := by
  rw [jsStringEscapeChars_eq]
  induction l with
  | nil =>
    intro i hi
    simp at hi
  | cons c l ih =>
    rw [List.flatMap_cons]
    rcases escapeChar_cases c with ⟨hc, he⟩ | ⟨_, d, he, _, _⟩
    · simp only [specialChars, List.mem_cons, List.mem_singleton, List.not_mem_nil, or_false,
        not_or] at hc
      rw [he]
      exact quotesEscaped_cons_plain c _ hc.2.1 hc.2.2.1 ih
    · rw [he]
      exact quotesEscaped_cons_escape d _ ih

theorem jsStringEscapeChars_plain (l : List Char) (h : ∀ c ∈ l, c ∉ specialChars) :
    jsStringEscapeChars l = l := by
  rw [jsStringEscapeChars_eq]
  induction l with
  | nil => rfl
  | cons c l ih =>
    rw [List.flatMap_cons, ih (fun a ha => h a (List.mem_cons_of_mem _ ha))]
    rcases escapeChar_cases c with ⟨_, he⟩ | ⟨hc, _⟩
    · rw [he]
      rfl
    · exact absurd hc (h c (List.mem_cons_self _ _))

/-- C11: `jsStringEscape` is lossless: two strings with the same escaped form are equal; the
escaped form contains no raw newline, carriage return, tab or backspace; every single or
double quote in it directly follows a backslash; a string with none of the seven special
characters is returned unchanged, and so is every message tag used by the controller. -/
theorem jsStringEscape_lossless :
    (∀ s t : String, jsStringEscape s = jsStringEscape t → s = t) ∧
    (∀ s : String, ∀ c ∈ (jsStringEscape s).data,
      c ≠ newline ∧ c ≠ carriageReturn ∧ c ≠ tab ∧ c ≠ backspace) ∧
    (∀ (s : String) (i : Nat),
      ((jsStringEscape s).data[i]? = some singleQuote ∨
        (jsStringEscape s).data[i]? = some doubleQuote) →
      ∃ j, i = j + 1 ∧ (jsStringEscape s).data[j]? = some backslash) ∧
    (∀ s : String, (∀ c ∈ s.data, c ∉ specialChars) → jsStringEscape s = s) ∧
    (∀ tag ∈ controllerTags, jsStringEscape tag = tag) := by
  refine ⟨fun s t h => ?_, fun s => jsStringEscapeChars_no_control s.data,
    fun s => jsStringEscapeChars_quotesEscaped s.data, fun s h => ?_, by decide⟩
  · have hd : jsStringEscapeChars s.data = jsStringEscapeChars t.data :=
      congrArg String.data h
    exact String.ext (jsStringEscapeChars_injective s.data t.data hd)
  · exact String.ext (jsStringEscapeChars_plain s.data h)

/-- Witness for C11: the escaped form of a quoted text ending in a newline, a tag left
unchanged, and a newline and the two characters of its escape sequence kept apart. -/
theorem jsStringEscape_lossless_witness :
    jsStringEscape "say \"hi\"\n" = "say \\\"hi\\\"\\n" ∧
    ((jsStringEscape "say \"hi\"\n").data[5]? = some singleQuote ∨
      (jsStringEscape "say \"hi\"\n").data[5]? = some doubleQuote) ∧
    (∃ j, 5 = j + 1 ∧ (jsStringEscape "say \"hi\"\n").data[j]? = some backslash) ∧
    (∀ c ∈ "J_EVT_READY".data, c ∉ specialChars) ∧
    jsStringEscape "J_EVT_READY" = "J_EVT_READY" ∧
    jsStringEscape "\n" ≠ jsStringEscape "\\n" :=
  ⟨by decide, by decide,
    jsStringEscape_lossless.2.2.1 "say \"hi\"\n" 5 (by decide),
    by decide,
    jsStringEscape_lossless.2.2.2.1 "J_EVT_READY" (by decide),
    fun h => absurd (jsStringEscape_lossless.1 "\n" "\\n" h) (by decide)⟩

end EditorNS
